import Mathlib

/-!
Verification of the document-to-chunk pipeline of the Financial Document Q&A
assistant: a shallow embedding of the tabular renderer (`_df_to_text`), the
spreadsheet/CSV extractor (`extract_from_excel`), the PDF extractor
(`extract_from_pdf` and its helpers), the chunk splitter configuration, the
priority classifier of `create_vector_db`, and the guard of
`process_question_with_rag`, together with theorems settling the frozen
claims about them.

Python strings are modelled as Lean `String` (a structure over `List Char`);
`"\n".join` and `" | ".join` are modelled by `pyJoin`, and re-parsing of the
rendered text is done with an executable splitter `splitOnSep` over the
character list.  Python/pandas numbers are modelled as exact rationals in an
explicit, kernel-computable pair representation `PyNum` (numerator and
positive denominator, not necessarily reduced).
-/

namespace FinDoc

/-! ## String utilities -/

/-- Characters of a concatenation. -/
theorem strDataAppend (a b : String) : (a ++ b).data = a.data ++ b.data := by
  cases a; cases b; rfl

/-- `sep.join(pieces)` of Python, at the character-list level. -/
def pyJoin (sep : String) (l : List String) : String :=
  ⟨List.intercalate sep.data (l.map String.data)⟩

/-- Push the head character onto the first group of a split result. -/
def consHead (a : Char) : List (List Char) → List (List Char)
  | [] => [[a]]
  | r :: rs => (a :: r) :: rs

/-- Split a character list at every occurrence of `sep`, scanning left to
right; separators are dropped, `n` separators yield `n+1` groups. -/
def splitOnSep (sep : List Char) (l : List Char) : List (List Char) :=
  match l with
  | [] => [[]]
  | a :: as =>
    if h : sep ≠ [] ∧ sep.isPrefixOf (a :: as) then
      [] :: splitOnSep sep ((a :: as).drop sep.length)
    else
      consHead a (splitOnSep sep as)
termination_by l.length
decreasing_by
  · have hs : 0 < sep.length := List.length_pos.mpr h.1
    simp only [List.length_drop, List.length_cons]
    omega
  · simp only [List.length_cons]
    omega

/-- The lines of a string: split on the newline character. -/
def linesOf (s : String) : List String :=
  (s.data.splitOn '\n').map (fun l => (⟨l⟩ : String))

/-- Bool-valued "needle occurs as a contiguous substring of hay", at the
character-list level (model of Python's `in` on strings). -/
def subOccurs (needle : List Char) : List Char → Bool
  | [] => needle.isEmpty
  | a :: as => needle.isPrefixOf (a :: as) || subOccurs needle as

/-- Python's `needle in hay` for strings. -/
def strContains (hay needle : String) : Bool :=
  subOccurs needle.data hay.data

/-- Python's `str.lower()` (ASCII case folding, as used by the pipeline's
lexical term matching). -/
def pyLower (s : String) : String := ⟨s.data.map Char.toLower⟩

/-- Python truthiness check `txt.strip()` used on extracted page text:
true iff some character is not whitespace. -/
def hasContent (s : String) : Bool := s.data.any (fun c => !c.isWhitespace)

/-! ## Exact numbers (model of pandas numeric cells)

pandas numeric columns are modelled by exact rationals `n / d` with a
positive denominator, kept in an explicit pair so that every operation is
kernel-computable.  Sum, mean, min and max below mirror `Series.sum`,
`Series.mean`, `Series.min`, `Series.max` on a column without nulls (the
extractor applies `fillna("")` before rendering). -/

structure PyNum where
  n : Int
  d : Nat
deriving DecidableEq, Repr

def pyZero : PyNum := ⟨0, 1⟩

def pnInt (k : Int) : PyNum := ⟨k, 1⟩

def pyAdd (a b : PyNum) : PyNum := ⟨a.n * b.d + b.n * a.d, a.d * b.d⟩

/-- Division of a sum by a (row) count: the mean. -/
def pyDivNat (a : PyNum) (k : Nat) : PyNum := ⟨a.n, a.d * k⟩

def pyLe (a b : PyNum) : Bool := decide (a.n * b.d ≤ b.n * a.d)

def pyMin (a b : PyNum) : PyNum := if pyLe a b then a else b

def pyMax (a b : PyNum) : PyNum := if pyLe a b then b else a

/-- `Series.sum` over the column values. -/
def pySumList (vals : List PyNum) : PyNum := vals.foldl pyAdd pyZero

/-- `Series.mean` over the column values. -/
def pyMeanList (vals : List PyNum) : PyNum := pyDivNat (pySumList vals) vals.length

/-- `Series.count` (non-null count; the model has no nulls). -/
def pyCountList (vals : List PyNum) : Nat := vals.length

/-- `Series.min` over the column values. -/
def pyMinList : List PyNum → PyNum
  | [] => pyZero
  | v :: vs => vs.foldl pyMin v

/-- `Series.max` over the column values. -/
def pyMaxList : List PyNum → PyNum
  | [] => pyZero
  | v :: vs => vs.foldl pyMax v

/-- The integer nearest to `100 * q` (ties toward +infinity), i.e. the
centi-unit value printed by a two-decimal format. -/
def round2 (q : PyNum) : Int := Int.fdiv (q.n * 200 + q.d) (2 * q.d)

/-- Exactly two decimal digits. -/
def twoDigits (r : Nat) : String := ⟨[Nat.digitChar (r / 10), Nat.digitChar (r % 10)]⟩

/-- Python's `f"{x:.2f}"`: optional sign, integer part, a dot, and exactly
two fractional digits. -/
def fmt2 (q : PyNum) : String :=
  let c := round2 q
  (if c < 0 then "-" else "") ++ Nat.repr (c.natAbs / 100) ++ "." ++ twoDigits (c.natAbs % 100)

/-- `str(x)` for a numeric cell: sign, numerator magnitude, and the
denominator when the value is not integral (the exact textual form of a
number is a type-to-string formatting choice of the model). -/
def numCellStr (q : PyNum) : String :=
  (if q.n < 0 then "-" else "") ++ Nat.repr q.n.natAbs ++
    (if q.d = 1 then "" else "/" ++ Nat.repr q.d)

/-! ## Priority classifier (`create_vector_db`, qa_pipeline.py lines 46-72) -/

inductive Priority where
  | critical
  | high
  | medium
  | low
deriving DecidableEq, Repr

/-- The boolean metadata flags the classifier may set on a chunk; a field is
`false` when the corresponding metadata key is absent. -/
structure ChunkFlags where
  contains_totals : Bool
  contains_calculations : Bool
  contains_records : Bool
deriving DecidableEq, Repr

def noFlags : ChunkFlags := ⟨false, false, false⟩

def criticalTerms : List String :=
  ["total records:", "total amount:", "financial summary", "total:", "sum:", "breakdown"]

def highTerms : List String := ["calculation:", "average:", "count:", "distribution"]

def mediumTerms : List String := ["record", "row", "data"]

/-- `any(term in content for term in terms)` with `content` already lowered. -/
def anyTermIn (content : String) (terms : List String) : Bool :=
  terms.any (fun t => strContains content t)

/-- The priority label assigned to a chunk's text (lines 50-72 of
qa_pipeline.py): the lowered content is tested against the critical terms,
then the high terms, then the medium terms; first match wins. -/
def classifyPriority (text : String) : Priority :=
  let content := pyLower text
  if anyTermIn content criticalTerms then .critical
  else if anyTermIn content highTerms then .high
  else if anyTermIn content mediumTerms then .medium
  else .low

/-- The boolean flags set alongside the priority label. -/
def classifyFlags (text : String) : ChunkFlags :=
  let content := pyLower text
  if anyTermIn content criticalTerms then ⟨true, false, false⟩
  else if anyTermIn content highTerms then ⟨false, true, false⟩
  else if anyTermIn content mediumTerms then ⟨false, false, true⟩
  else noFlags

/-- One annotated chunk as produced by the enumeration loop of
`create_vector_db`: sequence position, character count, priority, flags. -/
structure ChunkMeta where
  chunk_id : Nat
  chunk_size : Nat
  priority : Priority
  flags : ChunkFlags
deriving DecidableEq, Repr

def annotateChunk (i : Nat) (text : String) : ChunkMeta :=
  ⟨i, text.length, classifyPriority text, classifyFlags text⟩

/-! ## Chunk splitter

Modelled from the spec: the repository configures langchain's
`RecursiveCharacterTextSplitter` (chunk size 1500, separators
`"\n\n", "\n", "===", "TOTAL", "SUMMARY", "BREAKDOWN", "---", "|", ",", " "`,
separators kept in the output), whose code is not part of this repository.
Following §4.3 of the spec: splits are attempted at the priority-ordered
separator list; a piece not exceeding the maximum size is kept, a larger
piece is re-split with the remaining separators, and after the last
separator a character-level fallback cuts the text into maximum-size
blocks.  Separators are retained (attached to the following piece). -/

def splitterSeparators : List String :=
  ["\n\n", "\n", "===", "TOTAL", "SUMMARY", "BREAKDOWN", "---", "|", ",", " "]

def splitterChunkSize : Nat := 1500

/-- Character-level fallback: consecutive blocks of at most `n` characters. -/
def chunkEvery (n : Nat) (l : List Char) : List (List Char) :=
  if l = [] then []
  else if n = 0 then [l]
  else l.take n :: chunkEvery n (l.drop n)
termination_by l.length
decreasing_by
  rename_i h1 h2
  have : l.length ≠ 0 := fun hz => h1 (List.length_eq_zero.mp hz)
  simp only [List.length_drop]
  omega

/-- Split at every occurrence of `sep`, retaining the separator at the head
of each following piece, so that the concatenation is the original text. -/
def splitRetain (sep : List Char) (l : List Char) : List (List Char) :=
  match splitOnSep sep l with
  | [] => []
  | p :: ps => p :: ps.map (fun q => sep ++ q)

/-- Modelled from the spec: recursive splitting along the separator list
with a character-level fallback at the end. -/
def splitTextRec (seps : List String) (maxSize : Nat) (text : String) : List String :=
  match seps with
  | [] => (chunkEvery maxSize text.data).map (fun l => (⟨l⟩ : String))
  | s :: rest =>
    ((splitRetain s.data text.data).map (fun l => (⟨l⟩ : String))).map
      (fun piece => if piece.length ≤ maxSize then [piece] else splitTextRec rest maxSize piece)
    |>.flatten

/-- Modelled from the spec: the Chunk Splitter applied to one document's
text, with the chunk size and separator priority list configured in
`create_vector_db`. -/
def splitText (text : String) : List String :=
  if text.length ≤ splitterChunkSize then [text]
  else splitTextRec splitterSeparators splitterChunkSize text

/-! ## Tabular data model (pandas DataFrame as rendered by `_df_to_text`) -/

/-- A column's cells: pandas dtype is per-column, numeric or text
(`object`). -/
inductive ColData where
  | nums (vals : List PyNum)
  | strs (vals : List String)
deriving DecidableEq

structure Col where
  name : String
  data : ColData
deriving DecidableEq

/-- A table: ordered columns plus the row count (`len(df)`). -/
structure DataFrame where
  nrows : Nat
  cols : List Col
deriving DecidableEq

/-- Well-formedness: every column has exactly `nrows` cells. -/
def DFWf (df : DataFrame) : Prop :=
  ∀ c ∈ df.cols, (match c.data with
    | .nums vals => vals.length
    | .strs vals => vals.length) = df.nrows

instance (df : DataFrame) : Decidable (DFWf df) := by
  unfold DFWf; infer_instance

def isNumCol (c : Col) : Bool := match c.data with | .nums _ => true | .strs _ => false

def isStrCol (c : Col) : Bool := match c.data with | .nums _ => false | .strs _ => true

/-- `df.select_dtypes(include=['number']).columns`. -/
def numericCols (df : DataFrame) : List Col := df.cols.filter isNumCol

/-- `df.select_dtypes(include=['object']).columns`. -/
def textCols (df : DataFrame) : List Col := df.cols.filter isStrCol

/-- The text cells of a column (empty for a numeric column). -/
def colStrVals (c : Col) : List String :=
  match c.data with | .nums _ => [] | .strs vals => vals

/-- `str(row[col])` for the cell in row `i` of column `c`. -/
def colCellStr (c : Col) (i : Nat) : String :=
  match c.data with
  | .nums vals => numCellStr (vals.getD i pyZero)
  | .strs vals => vals.getD i ""

/-- `df.empty`: true when either axis has length zero. -/
def dfIsEmpty (df : DataFrame) : Bool := df.nrows == 0 || df.cols.isEmpty

/-- First-occurrence list of distinct values (`Series.unique` order). -/
def distincts (l : List String) : List String :=
  l.foldl (fun acc v => if acc.contains v then acc else acc ++ [v]) []

/-- `Series.nunique()`. -/
def nuniq (l : List String) : Nat := (distincts l).length

/-- Occurrences of `v` in the column. -/
def countOcc (v : String) (l : List String) : Nat := l.count v

/-- Stable insertion (descending by occurrence count) for `value_counts`. -/
def insertByCount (vals : List String) (k : String) : List String → List String
  | [] => [k]
  | x :: xs =>
    if countOcc x vals < countOcc k vals then k :: x :: xs
    else x :: insertByCount vals k xs

/-- `Series.value_counts()` keys: distinct values sorted by descending
count, ties in first-encounter order. -/
def valueCountKeys (vals : List String) : List String :=
  (distincts vals).foldr (insertByCount vals) []

/-- Lexicographic comparison of character lists (the string order used for
pandas' sorted group keys). -/
def charListLt : List Char → List Char → Bool
  | [], [] => false
  | [], _ :: _ => true
  | _ :: _, [] => false
  | a :: as, b :: bs => if a < b then true else if b < a then false else charListLt as bs

def strLtb (a b : String) : Bool := charListLt a.data b.data

/-- Ascending insertion for the sorted group keys of `df.groupby`. -/
def insertAsc (k : String) : List String → List String
  | [] => [k]
  | x :: xs => if strLtb k x then k :: x :: xs else x :: insertAsc k xs

def sortStrAsc (l : List String) : List String := l.foldr insertAsc []

/-! ## Tabular Document Renderer (`_df_to_text`, excel_extraction.py 10-55) -/

/-- The `=== ALL DATA ROWS ===` section marker. -/
def markerLine : String := "=== ALL DATA ROWS ==="

/-- One line of the numerical summary (line 34 of excel_extraction.py):
`TOTAL`, `AVERAGE`, `MIN`, `MAX` through the two-decimal format, `COUNT` as
a plain integer. -/
def numSummaryLine (c : Col) : String :=
  match c.data with
  | .strs _ => ""
  | .nums vals =>
    c.name ++ ": TOTAL=" ++ fmt2 (pySumList vals) ++ ", AVERAGE=" ++ fmt2 (pyMeanList vals) ++
      ", COUNT=" ++ Nat.repr (pyCountList vals) ++ ", MIN=" ++ fmt2 (pyMinList vals) ++
      ", MAX=" ++ fmt2 (pyMaxList vals)

/-- The `=== NUMERICAL SUMMARY ===` section (lines 24-35), empty when the
table has no numeric column. -/
def numericSection (df : DataFrame) : List String :=
  match numericCols df with
  | [] => []
  | ncs => "=== NUMERICAL SUMMARY ===" :: ncs.map numSummaryLine ++ [""]

/-- The per-column lines of the categorical summary (lines 41-46). -/
def catColLines (c : Col) : List String :=
  let vals := colStrVals c
  (c.name ++ ": " ++ Nat.repr (nuniq vals) ++ " unique values") ::
    ((valueCountKeys vals).take 10).map
      (fun v => "  " ++ v ++ ": " ++ Nat.repr (countOcc v vals) ++ " occurrences")

/-- The `=== CATEGORICAL SUMMARY ===` section (lines 37-47), empty when the
table has no text column. -/
def categoricalSection (df : DataFrame) : List String :=
  match textCols df with
  | [] => []
  | tcs => "=== CATEGORICAL SUMMARY ===" :: (tcs.map catColLines).flatten ++ [""]

/-- Line 52-53: `Row {i+1}: col:val | col2:val2 | ...` over all columns. -/
def rowLine (df : DataFrame) (i : Nat) : String :=
  "Row " ++ Nat.repr (i + 1) ++ ": " ++
    pyJoin " | " (df.cols.map (fun c => c.name ++ ":" ++ colCellStr c i))

/-- The complete row dump, one line per row in row order. -/
def rowLines (df : DataFrame) : List String :=
  (List.range df.nrows).map (rowLine df)

/-- The full line list built by `_df_to_text` for a non-empty table. -/
def dfLines (df : DataFrame) (title : String) : List String :=
  ["=== " ++ title ++ " ===",
   "Total Rows: " ++ Nat.repr df.nrows,
   "Total Columns: " ++ Nat.repr df.cols.length,
   "",
   "COLUMN HEADERS: " ++ pyJoin " | " (df.cols.map Col.name),
   ""] ++
  numericSection df ++
  categoricalSection df ++
  [markerLine] ++
  rowLines df

/-- `_df_to_text` itself: empty string for an empty table, otherwise the
newline-joined line list. -/
def df_to_text (df : DataFrame) (title : String) : String :=
  if dfIsEmpty df then "" else pyJoin "\n" (dfLines df title)

/-! ## Re-parsing the rendered row dump (for the round-trip claim) -/

/-- The lines strictly after the first `=== ALL DATA ROWS ===` line. -/
def rowSection (s : String) : List String :=
  ((linesOf s).dropWhile (fun l => l != markerLine)).drop 1

/-- Parse one `col:val` piece at its first colon. -/
def parseCell (piece : List Char) : String × String :=
  (⟨piece.takeWhile (fun c => c != ':')⟩,
   ⟨(piece.dropWhile (fun c => c != ':')).drop 1⟩)

/-- Parse a `Row <digits>: col:val | col2:val2 | ...` line back into its
column-name/cell-string pairs. -/
def parseRowLine (s : String) : Option (List (String × String)) :=
  if s.data.take 4 = ['R', 'o', 'w', ' '] then
    let rest := s.data.drop 4
    let ds := rest.takeWhile (fun c => c != ':')
    if ds.isEmpty || !(ds.all Char.isDigit) then none
    else
      match rest.dropWhile (fun c => c != ':') with
      | ':' :: ' ' :: body => some ((splitOnSep [' ', '|', ' '] body).map parseCell)
      | _ => none
  else none

/-! ## Documents and metadata -/

/-- The metadata mapping attached to an extracted Document; an `Option`
field is `none` when the corresponding key is absent. -/
structure Meta where
  source : String
  type : String
  rows : Option Nat
  columns : Option Nat
  chunk_start : Option Nat
  chunk_end : Option Nat
  group_column : Option String
  group_value : Option String
  sheet : Option String
  page : Option Nat
  method : Option String
  error : Option String
deriving DecidableEq

def emptyMeta : Meta :=
  ⟨"", "", none, none, none, none, none, none, none, none, none, none⟩

structure Document where
  page_content : String
  metadata : Meta
deriving DecidableEq

/-! ## Spreadsheet/CSV extractor (`extract_from_excel`, excel_extraction.py 57-185) -/

/-- Group-by eligibility (line 89): text dtype and under 20 distinct
values. -/
def colEligible (c : Col) : Bool :=
  match c.data with
  | .nums _ => false
  | .strs vals => isStrCol c && decide (nuniq vals < 20)

/-- Indices of the rows whose cell in the grouping column equals `v`. -/
def rowIndicesWhere (vals : List String) (n : Nat) (v : String) : List Nat :=
  (List.range n).filter (fun i => vals.getD i "" == v)

def restrictData (idxs : List Nat) : ColData → ColData
  | .nums qs => .nums (idxs.map (fun i => qs.getD i pyZero))
  | .strs ss => .strs (idxs.map (fun i => ss.getD i ""))

/-- The sub-table of the given rows, in order. -/
def dfRestrict (df : DataFrame) (idxs : List Nat) : DataFrame :=
  ⟨idxs.length, df.cols.map (fun c => ⟨c.name, restrictData idxs c.data⟩)⟩

/-- The group Documents for one grouping column (lines 90-103): one
Document per group key (pandas group keys are sorted), skipping groups of
fewer than two rows. -/
def groupDocs (filename : String) (df : DataFrame) (c : Col) : List Document :=
  (sortStrAsc (distincts (colStrVals c))).filterMap (fun v =>
    let g := dfRestrict df (rowIndicesWhere (colStrVals c) df.nrows v)
    if 1 < g.nrows then
      some ⟨df_to_text g ("Category Group - " ++ c.name ++ ": " ++ v),
            { emptyMeta with
                source := filename, type := "csv_group",
                group_column := some c.name, group_value := some v,
                rows := some g.nrows }⟩
    else none)

/-- The financial-summary content (lines 109-117). -/
def finSummaryContent (df : DataFrame) : String :=
  pyJoin "\n" ("=== FINANCIAL SUMMARY ===" ::
    ((numericCols df).map (fun c =>
      match c.data with
      | .strs _ => []
      | .nums vals =>
        [c.name ++ " TOTAL: " ++ fmt2 (pySumList vals),
         c.name ++ " AVERAGE: " ++ fmt2 (pyMeanList vals),
         c.name ++ " COUNT: " ++ Nat.repr (pyCountList vals)])).flatten)

/-- The CSV branch of `extract_from_excel` (lines 66-127): the complete
Document, then (for more than 100 rows) the group Documents of the first
eligible column, then the financial summary when a numeric column exists. -/
def csvDocs (filename : String) (df : DataFrame) : List Document :=
  (⟨df_to_text df "Complete CSV Dataset",
    { emptyMeta with
        source := filename, type := "csv_complete",
        rows := some df.nrows, columns := some df.cols.length }⟩ :
    Document) ::
  ((if 100 < df.nrows then
      match df.cols.find? colEligible with
      | some c => groupDocs filename df c
      | none => []
    else []) ++
   (if (numericCols df).isEmpty then []
    else [⟨finSummaryContent df,
           { emptyMeta with source := filename, type := "financial_summary" }⟩]))

/-- `df.iloc[i:j]`. -/
def dfSlice (df : DataFrame) (i j : Nat) : DataFrame :=
  ⟨min j df.nrows - i,
   df.cols.map (fun c => ⟨c.name,
     match c.data with
     | .nums qs => .nums ((qs.drop i).take (j - i))
     | .strs ss => .strs ((ss.drop i).take (j - i))⟩)⟩

/-- `range(0, n, 200)`. -/
def chunkStarts (n : Nat) : List Nat := (List.range ((n + 199) / 200)).map (· * 200)

/-- The Documents for one Excel sheet (lines 136-172): the complete sheet
Document, then (for more than 200 rows) sequential 200-row chunk Documents
with 1-based inclusive bounds. -/
def excelSheetDocs (filename sheetName : String) (df : DataFrame) : List Document :=
  (⟨df_to_text df ("Excel Sheet: " ++ sheetName),
    { emptyMeta with
        source := filename, type := "excel_sheet_complete", sheet := some sheetName,
        rows := some df.nrows, columns := some df.cols.length }⟩ :
    Document) ::
  (if 200 < df.nrows then
    (chunkStarts df.nrows).map (fun i =>
      let c := dfSlice df i (i + 200)
      ⟨df_to_text c ("Sheet " ++ sheetName ++ " - Rows " ++ Nat.repr (i + 1) ++
          " to " ++ Nat.repr (i + c.nrows)),
       { emptyMeta with
           source := filename, type := "excel_chunk", sheet := some sheetName,
           chunk_start := some (i + 1), chunk_end := some (i + c.nrows),
           rows := some c.nrows }⟩)
   else [])

/-- The parsed content of the staged file: a single CSV table or the sheet
dictionary of an Excel workbook. -/
inductive ExcelSource where
  | csv (df : DataFrame)
  | xlsx (sheets : List (String × DataFrame))

/-- `extract_from_excel`: the whole body runs under `try`; any failure is
returned as a single error Document (lines 177-182). -/
def extract_from_excel (filename : String) (src : Except String ExcelSource) : List Document :=
  match src with
  | .error e =>
    [⟨"Error extracting Excel/CSV data: " ++ e,
      { emptyMeta with source := filename, error := some e }⟩]
  | .ok (.csv df) => csvDocs filename df
  | .ok (.xlsx sheets) =>
    (sheets.map (fun p => excelSheetDocs filename p.1 p.2)).flatten

/-! ## PDF extractor (`pdf_extraction.py`) -/

/-- A staged PDF as seen by the three text strategies and the table
extractor: the page text each library would produce, and the tables
detected per page (cells may be `None`). -/
structure PdfFile where
  plumberPages : List String
  pypdfPages : List String
  ocrPages : List String
  pageTables : List (List (List (List (Option String))))

/-- The page Documents of one text strategy (`_text_pdfplumber`,
`_text_pypdf`, `_text_ocr` all filter blank pages and tag 1-based page
numbers and the method name). -/
def pageDocs (path methodName : String) (pages : List String) : List Document :=
  (List.range pages.length).filterMap (fun i =>
    let txt := pages.getD i ""
    if hasContent txt then
      some ⟨txt, { emptyMeta with
                     source := path, page := some (i + 1),
                     method := some methodName }⟩
    else none)

/-- Python's `a or b` on lists: the first non-empty one. -/
def pyOrList (a b : List Document) : List Document := if a.isEmpty then b else a

/-- Lines 133-135: the short-circuiting strategy cascade. -/
def extractTextDocs (path : String) (pdf : PdfFile) (enableOcr : Bool) : List Document :=
  pyOrList (pageDocs path "pdfplumber" pdf.plumberPages)
    (pyOrList (pageDocs path "pypdf" pdf.pypdfPages)
      (if enableOcr then pageDocs path "ocr" pdf.ocrPages else []))

/-- Truthiness of a table cell (`None` and `""` are falsy). -/
def cellTruthy : Option String → Bool
  | none => false
  | some s => s != ""

/-- Line 90: `any(cell for cell in row if cell)`. -/
def rowTruthy (row : List (Option String)) : Bool := row.any cellTruthy

/-- Python's `str.strip()`: whitespace removed from both ends. -/
def pyStrip (s : String) : String :=
  ⟨((s.data.dropWhile Char.isWhitespace).reverse.dropWhile Char.isWhitespace).reverse⟩

/-- Line 93: `str(cell or "").strip()`. -/
def cleanCell (c : Option String) : String := pyStrip (c.getD "")

/-- The header cell for position `i`, falling back to `Col{i+1}`
(line 102). -/
def headerName (hs : List String) (i : Nat) : String :=
  hs.getD i ("Col" ++ Nat.repr (i + 1))

/-- Render one data row against the detected headers (lines 100-104). -/
def qualifyRow (hs : List String) (row : List (Option String)) : String :=
  pyJoin " | " ((row.map cleanCell).enum.map (fun p => headerName hs p.1 ++ ": " ++ p.2))

/-- The row-rendering loop of `_tables` (lines 86-106): empty rows are
skipped; the row at index 0, if non-empty, becomes the header row; later
rows are qualified by the headers when headers exist, otherwise joined
plainly. -/
def renderTableGo (idx : Nat) (headers : Option (List String)) :
    List (List (Option String)) → List String
  | [] => []
  | row :: rest =>
    if !rowTruthy row then renderTableGo (idx + 1) headers rest
    else
      let clean := row.map cleanCell
      if idx = 0 ∧ headers = none then
        ("HEADERS: " ++ pyJoin " | " clean) :: renderTableGo (idx + 1) (some clean) rest
      else
        match headers with
        | some hs => qualifyRow hs row :: renderTableGo (idx + 1) headers rest
        | none => pyJoin " | " clean :: renderTableGo (idx + 1) headers rest

def renderTableRows (tbl : List (List (Option String))) : List String :=
  renderTableGo 0 none tbl

/-- Modelled from the spec's words (§4.2): table rendering with the header
row detected as the *first non-empty* row, every subsequent non-empty row
qualified by it.  Used only to compare the code's renderer against the
claimed behaviour. -/
def specRenderTableRows (tbl : List (List (Option String))) : List String :=
  match tbl.dropWhile (fun row => !rowTruthy row) with
  | [] => []
  | row0 :: rest =>
    ("HEADERS: " ++ pyJoin " | " (row0.map cleanCell)) ::
      (rest.filter rowTruthy).map (qualifyRow (row0.map cleanCell))

/-- The table Documents of `_tables` (lines 75-124). -/
def tableDocs (path : String) (pdf : PdfFile) : List Document :=
  ((List.range pdf.pageTables.length).map (fun p =>
    let tables := pdf.pageTables.getD p []
    (List.range tables.length).filterMap (fun t =>
      let tbl := tables.getD t []
      if tbl.isEmpty then none
      else
        let rows := renderTableRows tbl
        if rows.isEmpty then none
        else some (⟨"TABLE " ++ Nat.repr (t + 1) ++ " (Page " ++ Nat.repr (p + 1) ++ "):\n" ++
                      pyJoin "\n" rows,
                    { emptyMeta with
                        source := path, page := some (p + 1),
                        type := "table", rows := some rows.length,
                        method := some "table_extraction" }⟩ :
                   Document)))).flatten

/-- `extract_from_pdf` (lines 126-162): text strategies with short-circuit,
table extraction appended, placeholder when nothing was extracted, and a
single error Document on any fatal failure. -/
def extract_from_pdf (filename : String) (src : Except String PdfFile)
    (enableOcr : Bool) : List Document :=
  match src with
  | .error e =>
    [⟨"Error extracting PDF: " ++ e,
      { emptyMeta with source := filename, error := some e }⟩]
  | .ok pdf =>
    let docs := extractTextDocs filename pdf enableOcr ++ tableDocs filename pdf
    if docs.isEmpty then
      [⟨"No text extracted from PDF",
        { emptyMeta with source := filename, error := some "no_content" }⟩]
    else docs

/-! ## Question answering guard (`process_question_with_rag`, qa_pipeline.py 87-183) -/

/-- An external call made while answering a question. -/
inductive RagCall where
  | retrieval (query : String)
  | generation (prompt : String)
deriving DecidableEq

/-- The external collaborators: the vector store's similarity search and
the generation model. -/
structure RagOracles where
  search : String → Nat → List Document
  complete : String → String

/-- An opaque handle on the built vector store (only its presence matters
to the guard). -/
structure VectorDB where
  collectionName : String

/-- `process_question_with_rag`: with no vector database the fixed message
is returned before any external call; otherwise the multi-query chain runs
(three generated queries plus the original, each retrieved with k=100, then
one generation call on the assembled context).  The second component lists
the external calls made. -/
def process_question_with_rag (o : RagOracles) (question : String)
    (vectorDb : Option VectorDB) (modelName : String) : String × List RagCall :=
  match vectorDb with
  | none => ("Please upload and process a financial document first.", [])
  | some _ =>
    let queryPrompt := "Original question: " ++ question
    let generated := (o.complete queryPrompt).data
    let queries := [question, ⟨generated⟩]
    let retrieved := (queries.map (fun q => o.search q 100)).flatten
    let finalPrompt := "CONTEXT:\n" ++ pyJoin "\n" (retrieved.map Document.page_content) ++
      "\n\nQUESTION: " ++ question ++ "\n\nmodel=" ++ modelName
    (o.complete finalPrompt,
     .generation queryPrompt :: queries.map .retrieval ++ [.generation finalPrompt])

/-- The concatenation of a list of strings, at the character level. -/
def joinAll (l : List String) : List Char := (l.map String.data).flatten

/-! ## Concrete inputs used by witnesses, scenarios and counterexamples -/

/-- A 150-row CSV table with a 3-valued text column `Region` (50 rows per
value) and a numeric column `Amount` (the spec's CSV grouping scenario). -/
def df150 : DataFrame :=
  ⟨150,
   [⟨"Region", .strs ((List.range 150).map
      (fun i => if i % 3 = 0 then "East" else if i % 3 = 1 then "West" else "North"))⟩,
    ⟨"Amount", .nums ((List.range 150).map (fun i => pnInt (Int.ofNat i)))⟩]⟩

/-- A 450-row Excel sheet (the spec's chunking scenario). -/
def df450 : DataFrame :=
  ⟨450, [⟨"Value", .nums ((List.range 450).map (fun i => pnInt (Int.ofNat i)))⟩]⟩

/-- A one-row table whose single cell contains a newline. -/
def dfNewlineCell : DataFrame := ⟨1, [⟨"A", .strs ["x\ny"]⟩]⟩

/-- A small well-behaved table: two rows, a text and a numeric column. -/
def dfSmall : DataFrame :=
  ⟨2, [⟨"Name", .strs ["alpha", "beta"]⟩, ⟨"Amt", .nums [pnInt 1, pnInt 2]⟩]⟩

/-- A numeric column `A` with cells 1, 2, 3. -/
def colA123 : Col := ⟨"A", .nums [pnInt 1, pnInt 2, pnInt 3]⟩

/-- A table holding just the column `A`. -/
def dfA123 : DataFrame := ⟨3, [colA123]⟩

/-- A detected PDF table whose first row is entirely empty and whose second
row carries the column names. -/
def tblEmptyFirstRow : List (List (Option String)) :=
  [[none, none], [some "A", some "B"], [some "1", some "2"]]

/-- A PDF whose two text strategies yield only blank pages while OCR finds
text on page 2. -/
def pdfOcrOnly : PdfFile := ⟨["", ""], ["", ""], ["", "Revenue"], []⟩

/-! # Theorems -/

/-- C2: a chunk text containing "total:" (case-insensitively) is classified
`critical` with the `contains_totals` flag set, regardless of any other
term it contains; in general the classifier tests the critical, high, and
medium term lists in that order, first match wins, and with no match the
priority is `low` with no flag set. -/
theorem classifier_total_critical_precedence :
    ∀ text : String,
      (strContains (pyLower text) "total:" = true →
        classifyPriority text = .critical ∧ classifyFlags text = ⟨true, false, false⟩) ∧
      (classifyPriority text =
        if anyTermIn (pyLower text) criticalTerms then .critical
        else if anyTermIn (pyLower text) highTerms then .high
        else if anyTermIn (pyLower text) mediumTerms then .medium
        else .low) ∧
      (classifyPriority text = .low → classifyFlags text = noFlags) := by
  intro text
  have hcrit : strContains (pyLower text) "total:" = true →
      anyTermIn (pyLower text) criticalTerms = true := by
    intro h
    simp only [anyTermIn, List.any_eq_true]
    exact ⟨"total:", by simp [criticalTerms], h⟩
  refine ⟨fun h => ?_, ?_, fun h => ?_⟩
  · have hc := hcrit h
    simp [classifyPriority, classifyFlags, hc]
  · rfl
  · rw [classifyFlags]
    rw [classifyPriority] at h
    by_cases h1 : anyTermIn (pyLower text) criticalTerms = true
    · simp [h1] at h
    · by_cases h2 : anyTermIn (pyLower text) highTerms = true
      · simp [h1, h2] at h
      · by_cases h3 : anyTermIn (pyLower text) mediumTerms = true
        · simp [h1, h2, h3] at h
        · simp [h1, h2, h3]

/-- Witness for C2 at the text "Total: 5 rows of data", which contains
"total:" and also the medium terms "row" and "data". -/
theorem classifier_total_critical_precedence_witness :
    strContains (pyLower "Total: 5 rows of data") "total:" = true ∧
    strContains (pyLower "Total: 5 rows of data") "row" = true ∧
    classifyPriority "Total: 5 rows of data" = .critical ∧
    classifyFlags "Total: 5 rows of data" = ⟨true, false, false⟩ := by
  refine ⟨by decide, by decide, ?_⟩
  exact (classifier_total_critical_precedence "Total: 5 rows of data").1 (by decide)

/-- C9: on an internal failure neither extractor raises: each returns a
single Document whose content carries the error message and whose metadata
carries the `error` key. -/
theorem extractors_fail_closed :
    ∀ (filename e : String) (b : Bool),
      extract_from_excel filename (.error e) =
        [⟨"Error extracting Excel/CSV data: " ++ e,
          { emptyMeta with source := filename, error := some e }⟩] ∧
      extract_from_pdf filename (.error e) b =
        [⟨"Error extracting PDF: " ++ e,
          { emptyMeta with source := filename, error := some e }⟩] := by
  intro filename e b
  exact ⟨rfl, rfl⟩

/-- C10: with no vector database, `process_question_with_rag` returns
exactly the fixed message and makes no retrieval and no generation call,
whatever the question, the model name and the external collaborators do. -/
theorem process_question_none_guard :
    ∀ (o : RagOracles) (question modelName : String),
      process_question_with_rag o question none modelName =
        ("Please upload and process a financial document first.", []) := by
  intro o question modelName
  rfl

/-- Text-strategy page Documents never carry the `type` metadata key. -/
theorem pageDocs_no_type (path m : String) (pages : List String) :
    ∀ d ∈ pageDocs path m pages, d.metadata.type = "" := by
  intro d hd
  simp only [pageDocs, List.mem_filterMap, List.mem_range] at hd
  obtain ⟨i, _, heq⟩ := hd
  split at heq
  · cases Option.some.inj heq
    rfl
  · exact Option.noConfusion heq

/-- Every Document of `_tables` is tagged `type=table`. -/
theorem tableDocs_type (path : String) (pdf : PdfFile) :
    ∀ d ∈ tableDocs path pdf, d.metadata.type = "table" := by
  intro d hd
  simp only [tableDocs, List.mem_flatten, List.mem_map, List.mem_range] at hd
  obtain ⟨l, ⟨p, _, rfl⟩, hdl⟩ := hd
  simp only [List.mem_filterMap, List.mem_range] at hdl
  obtain ⟨t, _, heq⟩ := hdl
  split at heq
  · exact Option.noConfusion heq
  · split at heq
    · exact Option.noConfusion heq
    · cases Option.some.inj heq
      rfl

/-- Membership in Python's `a or b`. -/
theorem pyOrList_mem (a c : List Document) : ∀ d ∈ pyOrList a c, d ∈ a ∨ d ∈ c := by
  intro d hd
  unfold pyOrList at hd
  split at hd
  · exact Or.inr hd
  · exact Or.inl hd

/-- Documents of the text-strategy cascade never carry the `type` key. -/
theorem extractTextDocs_no_type (path : String) (pdf : PdfFile) (b : Bool) :
    ∀ d ∈ extractTextDocs path pdf b, d.metadata.type = "" := by
  intro d hd
  rcases pyOrList_mem _ _ d hd with h | h
  · exact pageDocs_no_type _ _ _ d h
  · rcases pyOrList_mem _ _ d h with h2 | h2
    · exact pageDocs_no_type _ _ _ d h2
    · split at h2
      · exact pageDocs_no_type _ _ _ d h2
      · cases h2

/-- C4: the text Documents of a PDF are those of the first strategy, in the
order pdfplumber, PyPDF2, OCR, that yields a non-empty page list; a later
strategy's output is never used once an earlier one succeeds, and OCR
contributes only when both prior strategies yielded zero Documents. -/
theorem pdf_text_strategy_short_circuit :
    ∀ (path : String) (pdf : PdfFile) (b : Bool),
      (pageDocs path "pdfplumber" pdf.plumberPages ≠ [] →
        extractTextDocs path pdf b = pageDocs path "pdfplumber" pdf.plumberPages) ∧
      (pageDocs path "pdfplumber" pdf.plumberPages = [] →
        pageDocs path "pypdf" pdf.pypdfPages ≠ [] →
        extractTextDocs path pdf b = pageDocs path "pypdf" pdf.pypdfPages) ∧
      (pageDocs path "pdfplumber" pdf.plumberPages = [] →
        pageDocs path "pypdf" pdf.pypdfPages = [] →
        extractTextDocs path pdf b = if b then pageDocs path "ocr" pdf.ocrPages else []) ∧
      (extractTextDocs path pdf b ≠ [] →
        (extract_from_pdf path (.ok pdf) b).filter (fun d => d.metadata.type != "table") =
          extractTextDocs path pdf b) := by
  intro path pdf b
  have hor : ∀ a c : List Document, a ≠ [] → pyOrList a c = a := by
    intro a c ha
    unfold pyOrList
    rw [if_neg (by simpa [List.isEmpty_iff] using ha)]
  have hor2 : ∀ c : List Document, pyOrList [] c = c := fun c => rfl
  refine ⟨fun h => ?_, fun h1 h2 => ?_, fun h1 h2 => ?_, fun h => ?_⟩
  · unfold extractTextDocs
    exact hor _ _ h
  · unfold extractTextDocs
    rw [h1, hor2, hor _ _ h2]
  · unfold extractTextDocs
    rw [h1, hor2, h2, hor2]
  · simp only [extract_from_pdf]
    split
    · rename_i hempty
      exact absurd (List.append_eq_nil.mp (List.isEmpty_iff.mp hempty)).1 h
    · rw [List.filter_append]
      have h1 : (extractTextDocs path pdf b).filter
          (fun d => d.metadata.type != "table") = extractTextDocs path pdf b := by
        apply List.filter_eq_self.mpr
        intro d hd
        simp [extractTextDocs_no_type path pdf b d hd]
      have h2 : (tableDocs path pdf).filter (fun d => d.metadata.type != "table") = [] := by
        apply List.filter_eq_nil_iff.mpr
        intro d hd
        simp [tableDocs_type path pdf d hd]
      rw [h1, h2, List.append_nil]

/-- Witness for C4: a PDF whose layout-aware and generic extraction find
only blank pages while OCR finds text on page 2 yields exactly the
OCR-derived page-2 Document. -/
theorem pdf_text_strategy_short_circuit_witness :
    pageDocs "doc.pdf" "pdfplumber" pdfOcrOnly.plumberPages = [] ∧
    pageDocs "doc.pdf" "pypdf" pdfOcrOnly.pypdfPages = [] ∧
    extractTextDocs "doc.pdf" pdfOcrOnly true =
      [⟨"Revenue", { emptyMeta with
                       source := "doc.pdf", page := some 2, method := some "ocr" }⟩] := by
  refine ⟨by decide, by decide, ?_⟩
  have h := (pdf_text_strategy_short_circuit "doc.pdf" pdfOcrOnly true).2.2.1
    (by decide) (by decide)
  rw [h]
  decide

/-! ### Splitter lemmas (C7) -/

/-- The boolean check `isPrefixOf` agrees with the existence of a
completing suffix. -/
theorem isPrefixOf_eq_iff : ∀ (a b : List Char), a.isPrefixOf b = true ↔ ∃ t, a ++ t = b := by
  intro a
  induction a with
  | nil =>
    intro b
    simp [List.isPrefixOf]
  | cons x xs ih =>
    intro b
    cases b with
    | nil => simp [List.isPrefixOf]
    | cons y ys =>
      simp only [List.isPrefixOf, Bool.and_eq_true, beq_iff_eq, ih ys, List.cons_append,
        List.cons.injEq]
      constructor
      · rintro ⟨rfl, t, rfl⟩
        exact ⟨t, rfl, rfl⟩
      · rintro ⟨t, rfl, rfl⟩
        exact ⟨rfl, t, rfl⟩

theorem splitOnSep_cons (sep : List Char) (a : Char) (as : List Char) :
    splitOnSep sep (a :: as) =
      if sep ≠ [] ∧ sep.isPrefixOf (a :: as) = true then
        [] :: splitOnSep sep ((a :: as).drop sep.length)
      else consHead a (splitOnSep sep as) := by
  rw [splitOnSep.eq_def]
  rfl

theorem splitOnSep_ne_nil (sep l) : splitOnSep sep l ≠ [] := by
  cases l with
  | nil => simp [splitOnSep]
  | cons a as =>
    rw [splitOnSep_cons]
    split
    · simp
    · cases splitOnSep sep as <;> simp [consHead]

theorem intercalate_one {α : Type} (sep x : List α) : List.intercalate sep [x] = x := by
  simp [List.intercalate]

theorem intercalate_cons2 {α : Type} (sep x y : List α) (t : List (List α)) :
    List.intercalate sep (x :: y :: t) = x ++ sep ++ List.intercalate sep (y :: t) := by
  simp [List.intercalate, List.intersperse_cons_cons, List.append_assoc]

theorem intercalate_consHead (sep : List Char) (a : Char) (S : List (List Char)) (hS : S ≠ []) :
    List.intercalate sep (consHead a S) = a :: List.intercalate sep S := by
  match S with
  | [] => exact absurd rfl hS
  | [s0] => simp [consHead, intercalate_one]
  | s0 :: s1 :: t => simp [consHead, intercalate_cons2]

/-- `splitOnSep` loses nothing: re-inserting the separator restores the
input. -/
theorem intercalate_splitOnSep (sep l : List Char) :
    List.intercalate sep (splitOnSep sep l) = l := by
  induction l using splitOnSep.induct sep with
  | case1 => simp [splitOnSep, intercalate_one]
  | case2 a as h ih =>
    rw [splitOnSep_cons, if_pos h]
    obtain ⟨r, rs, hR⟩ : ∃ r rs, splitOnSep sep ((a :: as).drop sep.length) = r :: rs := by
      cases hx : splitOnSep sep ((a :: as).drop sep.length) with
      | nil => exact absurd hx (splitOnSep_ne_nil _ _)
      | cons r rs => exact ⟨r, rs, rfl⟩
    rw [hR] at ih ⊢
    rw [intercalate_cons2, List.nil_append]
    rw [ih]
    obtain ⟨t, ht⟩ := (isPrefixOf_eq_iff _ _).mp h.2
    rw [← ht, List.drop_left]
  | case3 a as h ih =>
    rw [splitOnSep_cons, if_neg h]
    rw [intercalate_consHead sep a _ (splitOnSep_ne_nil sep as), ih]

theorem flatten_mapRetain (sep : List Char) :
    ∀ (ps : List (List Char)) (p : List Char),
      p ++ (ps.map (fun q => sep ++ q)).flatten = List.intercalate sep (p :: ps) := by
  intro ps
  induction ps with
  | nil => intro p; simp [intercalate_one]
  | cons q qs ih =>
    intro p
    rw [List.map_cons, List.flatten_cons, intercalate_cons2, ← ih q]
    simp [List.append_assoc]

/-- Separators are retained: the pieces of `splitRetain` concatenate back
to the input. -/
theorem splitRetain_flatten (sep l : List Char) : (splitRetain sep l).flatten = l := by
  unfold splitRetain
  cases hx : splitOnSep sep l with
  | nil => exact absurd hx (splitOnSep_ne_nil sep l)
  | cons p ps =>
    have h := intercalate_splitOnSep sep l
    rw [hx] at h
    rw [List.flatten_cons, flatten_mapRetain sep ps p, h]

theorem chunkEvery_flatten (n : Nat) (l : List Char) : (chunkEvery n l).flatten = l := by
  induction l using chunkEvery.induct n with
  | case1 => rw [chunkEvery.eq_def, if_pos rfl, List.flatten_nil]
  | case2 x h h0 => rw [chunkEvery.eq_def, if_neg h, if_pos h0]; simp
  | case3 x h h0 ih =>
    rw [chunkEvery.eq_def, if_neg h, if_neg h0, List.flatten_cons, ih, List.take_append_drop]

theorem chunkEvery_le (n : Nat) (l : List Char) (hn : 0 < n) :
    ∀ c ∈ chunkEvery n l, c.length ≤ n := by
  induction l using chunkEvery.induct n with
  | case1 => rw [chunkEvery.eq_def, if_pos rfl]; intro c hc; cases hc
  | case2 x h h0 => omega
  | case3 x h h0 ih =>
    rw [chunkEvery.eq_def, if_neg h, if_neg h0]
    intro c hc
    rcases List.mem_cons.mp hc with rfl | hc
    · simpa using Nat.le_of_eq_of_le (List.length_take n x) (min_le_left _ _)
    · exact ih c hc

theorem joinAll_flatten : ∀ L : List (List String), joinAll L.flatten = (L.map joinAll).flatten := by
  intro L
  induction L with
  | nil => rfl
  | cons x xs ih => simp only [List.flatten_cons, List.map_cons, joinAll, List.map_append,
      List.flatten_append] at ih ⊢; rw [ih]

/-- Spec-modelled splitter: concatenating its chunks restores the text. -/
theorem splitTextRec_joinAll :
    ∀ (seps : List String) (maxSize : Nat) (text : String),
      joinAll (splitTextRec seps maxSize text) = text.data := by
  intro seps
  induction seps with
  | nil =>
    intro maxSize text
    simp only [splitTextRec, joinAll, List.map_map]
    have : (String.data ∘ fun l => (⟨l⟩ : String)) = id := by
      funext l; rfl
    rw [this, List.map_id, chunkEvery_flatten]
  | cons s rest ih =>
    intro maxSize text
    simp only [splitTextRec]
    rw [joinAll_flatten, List.map_map]
    have hmap : ∀ piece : String,
        joinAll (if piece.length ≤ maxSize then [piece] else splitTextRec rest maxSize piece) =
          piece.data := by
      intro piece
      split
      · simp [joinAll]
      · exact ih maxSize piece
    calc ((((splitRetain s.data text.data).map (fun l => (⟨l⟩ : String))).map
            (joinAll ∘ fun piece =>
              if piece.length ≤ maxSize then [piece] else splitTextRec rest maxSize piece)).flatten)
        = (((splitRetain s.data text.data).map (fun l => (⟨l⟩ : String))).map
            String.data).flatten := by
          congr 1
          apply List.map_congr_left
          intro piece _
          exact hmap piece
      _ = text.data := by
          rw [List.map_map]
          have : (String.data ∘ fun l => (⟨l⟩ : String)) = id := by funext l; rfl
          rw [this, List.map_id, splitRetain_flatten]

/-- Spec-modelled splitter: every chunk it produces fits the bound. -/
theorem splitTextRec_le :
    ∀ (seps : List String) (maxSize : Nat), 0 < maxSize →
      ∀ (text c : String), c ∈ splitTextRec seps maxSize text → c.length ≤ maxSize := by
  intro seps
  induction seps with
  | nil =>
    intro maxSize hm text c hc
    simp only [splitTextRec, List.mem_map] at hc
    obtain ⟨l, hl, rfl⟩ := hc
    exact chunkEvery_le maxSize text.data hm l hl
  | cons s rest ih =>
    intro maxSize hm text c hc
    simp only [splitTextRec, List.mem_flatten, List.mem_map] at hc
    obtain ⟨sub, ⟨piece, ⟨l, _, rfl⟩, rfl⟩, hcsub⟩ := hc
    split at hcsub
    · rcases List.mem_singleton.mp hcsub with rfl
      omega
    · exact ih maxSize hm _ c hcsub

/-- C7: the Chunk Splitter (modelled from the spec: priority-ordered
separators ending in a character-level fallback, separators retained,
pieces over the maximum re-split with the remaining separators) produces
only chunks of at most 1500 characters — the fallback is always a valid
separator below the bound — and its chunks concatenate back to the input
text, so separators survive into the output. -/
theorem splitter_chunk_bound_and_retention :
    ∀ text : String,
      (∀ c ∈ splitText text, c.length ≤ splitterChunkSize) ∧
      joinAll (splitText text) = text.data := by
  intro text
  unfold splitText
  split
  · rename_i hle
    refine ⟨fun c hc => ?_, by simp [joinAll]⟩
    rcases List.mem_singleton.mp hc with rfl
    exact hle
  · exact ⟨fun c hc => splitTextRec_le splitterSeparators splitterChunkSize (by decide) text c hc,
      splitTextRec_joinAll splitterSeparators splitterChunkSize text⟩

/-- Witness for C7 at a short concrete text. -/
theorem splitter_chunk_bound_and_retention_witness :
    "TOTAL: 5" ∈ splitText "TOTAL: 5" ∧ ("TOTAL: 5" : String).length ≤ splitterChunkSize := by
  refine ⟨by decide, ?_⟩
  exact (splitter_chunk_bound_and_retention "TOTAL: 5").1 "TOTAL: 5" (by decide)

/-! ### Excel chunking (C6) -/

/-- A chunk start produced by `range(0, n, 200)` lies below `n`. -/
theorem chunkStart_lt (n k : Nat) (hk : k < (n + 199) / 200) : k * 200 < n := by
  have h1 : (k + 1) * 200 ≤ ((n + 199) / 200) * 200 := Nat.mul_le_mul_right _ hk
  have h2 : ((n + 199) / 200) * 200 ≤ n + 199 := Nat.div_mul_le_self _ _
  omega

/-- C6: an Excel sheet with more than 200 rows yields, besides the
complete-sheet Document, one `excel_chunk` Document per block of
`range(0, n, 200)`, with 1-based inclusive `chunk_start`/`chunk_end` and
the final block possibly smaller; a 450-row sheet yields chunks
(1,200), (201,400), (401,450) of 200/200/50 rows. -/
theorem excel_chunking :
    (∀ (fname sheetName : String) (df : DataFrame), 200 < df.nrows →
      ((excelSheetDocs fname sheetName df).map (fun d => d.metadata.type) =
        "excel_sheet_complete" :: List.replicate ((df.nrows + 199) / 200) "excel_chunk") ∧
      (((excelSheetDocs fname sheetName df).filter
          (fun d => d.metadata.type == "excel_chunk")).map
          (fun d => (d.metadata.chunk_start, d.metadata.chunk_end, d.metadata.rows)) =
        (List.range ((df.nrows + 199) / 200)).map (fun k =>
          (some (k * 200 + 1), some (min (k * 200 + 200) df.nrows),
           some (min (k * 200 + 200) df.nrows - k * 200))))) ∧
    ((excelSheetDocs "file.xlsx" "S" df450).map
        (fun d => (d.metadata.type, d.metadata.chunk_start, d.metadata.chunk_end,
                   d.metadata.rows)) =
      [("excel_sheet_complete", none, none, some 450),
       ("excel_chunk", some 1, some 200, some 200),
       ("excel_chunk", some 201, some 400, some 200),
       ("excel_chunk", some 401, some 450, some 50)]) := by
  constructor
  · intro fname sheetName df h
    constructor
    · simp only [excelSheetDocs, if_pos h, List.map_cons, chunkStarts, List.map_map]
      congr 1
      simp [Function.comp_def, List.map_const']
    · simp only [excelSheetDocs, if_pos h, chunkStarts, List.map_map]
      rw [List.filter_cons_of_neg (by simp)]
      rw [List.filter_eq_self.mpr]
      · rw [List.map_map]
        apply List.map_congr_left
        intro k hk
        have hlt := chunkStart_lt df.nrows k (List.mem_range.mp hk)
        simp only [Function.comp_apply, dfSlice]
        refine Prod.ext rfl (Prod.ext ?_ rfl)
        simp only [Option.some.injEq]
        omega
      · intro d hd
        simp only [List.mem_map] at hd
        obtain ⟨k, _, rfl⟩ := hd
        rfl
  · decide

/-- Witness for C6: the general chunk layout applied to the 450-row
sheet. -/
theorem excel_chunking_witness :
    200 < df450.nrows ∧
    ((excelSheetDocs "file.xlsx" "S" df450).map (fun d => d.metadata.type) =
      "excel_sheet_complete" :: List.replicate ((df450.nrows + 199) / 200) "excel_chunk") := by
  exact ⟨by decide, (excel_chunking.1 "file.xlsx" "S" df450 (by decide)).1⟩

/-! ### CSV grouping (C5) -/

theorem length_filterMap_eq_countP {α β : Type} (f : α → Option β) (l : List α) :
    (l.filterMap f).length = l.countP (fun a => (f a).isSome) := by
  induction l with
  | nil => rfl
  | cons x xs ih =>
    cases hf : f x <;> simp [List.filterMap_cons, List.countP_cons, hf, ih]

set_option maxRecDepth 40000 in
/-- C5: for a CSV with more than 100 rows, every group Document comes from
the first eligible column (text dtype, fewer than 20 distinct values) and
covers a group of at least 2 rows; the group Documents are exactly one per
distinct value occurring at least twice.  The 150-row `Region` scenario
yields 1 complete + 3 group + 1 financial-summary Documents. -/
theorem csv_groupby_first_eligible :
    (∀ (fname : String) (df : DataFrame), 100 < df.nrows →
      (∀ d ∈ csvDocs fname df, d.metadata.type = "csv_group" →
        ∃ c, df.cols.find? colEligible = some c ∧
          d.metadata.group_column = some c.name ∧
          ∃ k, d.metadata.rows = some k ∧ 2 ≤ k) ∧
      (∀ c, df.cols.find? colEligible = some c →
        ((csvDocs fname df).filter (fun d => d.metadata.type == "csv_group")).length =
          (sortStrAsc (distincts (colStrVals c))).countP
            (fun v => 2 ≤ (rowIndicesWhere (colStrVals c) df.nrows v).length))) ∧
    ((csvDocs "regions.csv" df150).map (fun d => d.metadata.type) =
      ["csv_complete", "csv_group", "csv_group", "csv_group", "financial_summary"]) := by
  constructor
  · intro fname df h
    constructor
    · intro d hd hty
      simp only [csvDocs, List.mem_cons, List.mem_append] at hd
      rcases hd with rfl | hd
      · simp at hty
      rcases hd with hd | hd
      · rw [if_pos h] at hd
        cases hfind : df.cols.find? colEligible with
        | none => rw [hfind] at hd; cases hd
        | some c =>
          rw [hfind] at hd
          refine ⟨c, rfl, ?_⟩
          simp only [groupDocs, List.mem_filterMap] at hd
          obtain ⟨v, _, heq⟩ := hd
          split at heq
          · rename_i h2
            cases Option.some.inj heq
            exact ⟨rfl, _, rfl, by omega⟩
          · exact Option.noConfusion heq
      · split at hd
        · cases hd
        · rcases List.mem_singleton.mp hd with rfl
          simp at hty
    · intro c hfind
      simp only [csvDocs, if_pos h, hfind]
      rw [List.filter_cons_of_neg (by simp)]
      rw [List.filter_append]
      have hfin : ((if (numericCols df).isEmpty then []
          else [(⟨finSummaryContent df,
                 { emptyMeta with source := fname, type := "financial_summary" }⟩ :
                Document)]).filter (fun d => d.metadata.type == "csv_group")) = [] := by
        split
        · rfl
        · rw [List.filter_cons_of_neg (by simp)]
          rfl
      rw [hfin, List.append_nil]
      rw [List.filter_eq_self.mpr]
      · rw [groupDocs, length_filterMap_eq_countP]
        apply List.countP_congr
        intro v _
        simp only [Option.isSome_some, Option.isSome_none]
        split
        · rename_i h2
          have h2' : 2 ≤ (rowIndicesWhere (colStrVals c) df.nrows v).length := h2
          simp [h2']
        · rename_i h2
          have h2' : ¬ 2 ≤ (rowIndicesWhere (colStrVals c) df.nrows v).length :=
            fun hx => h2 hx
          simp [h2']
      · intro d hd
        simp only [groupDocs, List.mem_filterMap] at hd
        obtain ⟨v, _, heq⟩ := hd
        split at heq
        · cases Option.some.inj heq
          rfl
        · exact Option.noConfusion heq
  · decide

set_option maxRecDepth 40000 in
/-- Witness for C5: the hypotheses hold at the 150-row `Region` table, and
the group-Document count equals the count of region values with at least
two rows. -/
theorem csv_groupby_first_eligible_witness :
    100 < df150.nrows ∧
    ((csvDocs "regions.csv" df150).filter (fun d => d.metadata.type == "csv_group")).length =
      (sortStrAsc (distincts (colStrVals (df150.cols.headD ⟨"", .strs []⟩)))).countP
        (fun v => 2 ≤ (rowIndicesWhere (colStrVals (df150.cols.headD ⟨"", .strs []⟩))
          df150.nrows v).length) := by
  refine ⟨by decide, ?_⟩
  exact (csv_groupby_first_eligible.1 "regions.csv" df150 (by decide)).2
    (df150.cols.headD ⟨"", .strs []⟩) (by decide)

/-! ### PDF table rendering (C8) -/

/-- Once headers are fixed, the remaining rows render as the
header-qualified non-empty rows, in order. -/
theorem renderTableGo_some (hs : List String) :
    ∀ (rows : List (List (Option String))) (idx : Nat),
      renderTableGo idx (some hs) rows = (rows.filter rowTruthy).map (qualifyRow hs) := by
  intro rows
  induction rows with
  | nil => intro idx; rfl
  | cons row rest ih =>
    intro idx
    rw [renderTableGo]
    by_cases ht : rowTruthy row = true
    · rw [if_neg (by simp [ht])]
      rw [if_neg (fun hc => Option.noConfusion hc.2)]
      rw [List.filter_cons_of_pos ht, List.map_cons, ih]
    · rw [if_pos (by simp [Bool.not_eq_true] at ht ⊢; exact ht)]
      rw [List.filter_cons_of_neg ht, ih]

/-- C8 (amended): the header of a detected PDF table is the row at index 0
and only that row — when it is non-empty its cleaned cells become the
column names and every later non-empty row is rendered `ColumnName: value |
...` against them (with `Col{i+1}` for cells beyond the headers). -/
theorem pdf_table_header_first_row :
    ∀ (row0 : List (Option String)) (rest : List (List (Option String))),
      rowTruthy row0 = true →
      renderTableRows (row0 :: rest) =
        ("HEADERS: " ++ pyJoin " | " (row0.map cleanCell)) ::
          (rest.filter rowTruthy).map (qualifyRow (row0.map cleanCell)) := by
  intro row0 rest h
  rw [renderTableRows, renderTableGo]
  rw [if_neg (by simp [h])]
  rw [if_pos ⟨rfl, rfl⟩]
  rw [renderTableGo_some]

/-- Witness for C8 (amended) at a table whose first row is non-empty. -/
theorem pdf_table_header_first_row_witness :
    rowTruthy [some "H1", some "H2"] = true ∧
    renderTableRows [[some "H1", some "H2"], [some "a", none]] =
      ["HEADERS: H1 | H2", "H1: a | H2: "] := by
  refine ⟨by decide, ?_⟩
  rw [pdf_table_header_first_row [some "H1", some "H2"] [[some "a", none]] (by decide)]
  decide

/-- Counterexample to C8 as stated: when the first row of the table is
empty, the code never detects a header — the first *non-empty* row is
rendered as a plain data row and later rows stay unqualified, unlike the
spec-worded rendering. -/
theorem pdf_table_header_counterexample :
    renderTableRows tblEmptyFirstRow = ["A | B", "1 | 2"] ∧
    specRenderTableRows tblEmptyFirstRow = ["HEADERS: A | B", "A: 1 | B: 2"] ∧
    renderTableRows tblEmptyFirstRow ≠ specRenderTableRows tblEmptyFirstRow := by
  exact ⟨by decide, by decide, by decide⟩

/-! ### Numerical summary (C3) -/

/-- C3 (amended): each numeric column's summary line reports the directly
computed sum, mean, non-null count, min and max of that column; TOTAL,
AVERAGE, MIN and MAX go through the two-decimal format while COUNT is
printed as a plain integer, and the line appears in the rendered output.
Every two-decimal format value ends in a dot plus exactly two digits. -/
theorem numeric_summary_aggregates :
    (∀ (df : DataFrame) (title : String) (c : Col) (vals : List PyNum),
      c ∈ df.cols → c.data = .nums vals →
      (numSummaryLine c =
        c.name ++ ": TOTAL=" ++ fmt2 (pySumList vals) ++ ", AVERAGE=" ++
          fmt2 (pyMeanList vals) ++ ", COUNT=" ++ Nat.repr (pyCountList vals) ++
          ", MIN=" ++ fmt2 (pyMinList vals) ++ ", MAX=" ++ fmt2 (pyMaxList vals)) ∧
      numSummaryLine c ∈ dfLines df title) ∧
    (∀ q : PyNum, ∃ pre r, fmt2 q = pre ++ "." ++ twoDigits r ∧
      (twoDigits r).length = 2) := by
  constructor
  · intro df title c vals hc hdata
    constructor
    · cases c with
      | mk name data =>
        cases hdata
        rfl
    · have hnum : c ∈ numericCols df := by
        rw [numericCols, List.mem_filter]
        exact ⟨hc, by rw [isNumCol, hdata]⟩
      have hline : numSummaryLine c ∈ numericSection df := by
        rw [numericSection]
        cases hncs : numericCols df with
        | nil => rw [hncs] at hnum; cases hnum
        | cons n ns =>
          rw [hncs] at hnum
          exact List.mem_cons_of_mem _
            (List.mem_append_left _ (List.mem_map_of_mem _ hnum))
      rw [dfLines]
      apply List.mem_append_left
      apply List.mem_append_left
      apply List.mem_append_left
      exact List.mem_append_right _ hline
  · intro q
    exact ⟨(if round2 q < 0 then "-" else "") ++ Nat.repr ((round2 q).natAbs / 100),
      (round2 q).natAbs % 100, rfl, rfl⟩

/-- Witness for C3 (amended) at the three-row column `A`. -/
theorem numeric_summary_aggregates_witness :
    colA123 ∈ dfA123.cols ∧ numSummaryLine colA123 ∈ dfLines dfA123 "T" :=
  ⟨by decide,
   (numeric_summary_aggregates.1 dfA123 "T" colA123 [pnInt 1, pnInt 2, pnInt 3]
     (by decide) rfl).2⟩

/-- Counterexample to C3 as stated: in the rendered summary line the COUNT
value is a plain integer (`COUNT=3`), not a two-decimal value
(`COUNT=3.00`). -/
theorem numeric_summary_count_format_counterexample :
    numSummaryLine colA123 =
      "A: TOTAL=6.00, AVERAGE=2.00, COUNT=3, MIN=1.00, MAX=3.00" ∧
    strContains (numSummaryLine colA123) "COUNT=3," = true ∧
    strContains (numSummaryLine colA123) "COUNT=3.00" = false := by
  exact ⟨by decide, by decide, by decide⟩

/-! ### Characters of rendered numbers (C1) -/

theorem toDigitsCore10_split :
    ∀ (fuel n : Nat) (ds : List Char),
      ∃ l, Nat.toDigitsCore 10 fuel n ds = l ++ ds ∧ (0 < fuel → l ≠ []) ∧
        ∀ c ∈ l, ∃ m, m < 10 ∧ c = Nat.digitChar m := by
  intro fuel
  induction fuel with
  | zero => intro n ds; exact ⟨[], rfl, by omega, by intro c hc; cases hc⟩
  | succ fuel ih =>
    intro n ds
    rw [Nat.toDigitsCore]
    split
    · exact ⟨[Nat.digitChar (n % 10)], rfl, fun _ => by simp,
        by
          intro c hc
          rcases List.mem_singleton.mp hc with rfl
          exact ⟨n % 10, Nat.mod_lt _ (by omega), rfl⟩⟩
    · obtain ⟨l, hl, _, hchars⟩ := ih (n / 10) (Nat.digitChar (n % 10) :: ds)
      refine ⟨l ++ [Nat.digitChar (n % 10)], by rw [hl]; simp, by simp, ?_⟩
      intro c hc
      rcases List.mem_append.mp hc with hc | hc
      · exact hchars c hc
      · rcases List.mem_singleton.mp hc with rfl
        exact ⟨n % 10, Nat.mod_lt _ (by omega), rfl⟩

theorem digitChar_isDigit : ∀ m, m < 10 → (Nat.digitChar m).isDigit = true := by decide

/-- Every character of `Nat.repr` is a decimal digit. -/
theorem repr_isDigit (n : Nat) : ∀ c ∈ (Nat.repr n).data, c.isDigit = true := by
  intro c hc
  have hr : (Nat.repr n).data = Nat.toDigitsCore 10 (n + 1) n [] := rfl
  rw [hr] at hc
  obtain ⟨l, hl, _, hchars⟩ := toDigitsCore10_split (n + 1) n []
  rw [hl, List.append_nil] at hc
  obtain ⟨m, hm, rfl⟩ := hchars c hc
  exact digitChar_isDigit m hm

theorem repr_ne_nil (n : Nat) : (Nat.repr n).data ≠ [] := by
  have hr : (Nat.repr n).data = Nat.toDigitsCore 10 (n + 1) n [] := rfl
  obtain ⟨l, hl, hne, _⟩ := toDigitsCore10_split (n + 1) n []
  rw [hr, hl, List.append_nil]
  exact hne (by omega)

/-- A decimal digit is none of the separator characters of the rendered
layout. -/
theorem isDigit_ne (c : Char) (h : c.isDigit = true) :
    c ≠ '\n' ∧ c ≠ '|' ∧ c ≠ ':' := by
  refine ⟨?_, ?_, ?_⟩ <;> rintro rfl <;> exact absurd h (by decide)

theorem repr_not_mem (n : Nat) :
    '\n' ∉ (Nat.repr n).data ∧ '|' ∉ (Nat.repr n).data ∧ ':' ∉ (Nat.repr n).data := by
  refine ⟨fun hc => ?_, fun hc => ?_, fun hc => ?_⟩ <;>
    exact absurd (repr_isDigit n _ hc) (by decide)

/-- Characters of a two-decimal formatted value: digits, a sign and a
dot. -/
theorem fmt2_not_mem (q : PyNum) : '\n' ∉ (fmt2 q).data ∧ '|' ∉ (fmt2 q).data := by
  have hd : (fmt2 q).data =
      (if round2 q < 0 then "-" else "" : String).data ++
        (Nat.repr ((round2 q).natAbs / 100)).data ++ ['.'] ++
        (twoDigits ((round2 q).natAbs % 100)).data := by
    rw [fmt2]
    rw [strDataAppend, strDataAppend, strDataAppend]
  constructor <;>
  · rw [hd]
    intro hc
    rcases List.mem_append.mp hc with hc | hc
    · rcases List.mem_append.mp hc with hc | hc
      · rcases List.mem_append.mp hc with hc | hc
        · split at hc <;> revert hc <;> decide
        · rcases repr_not_mem ((round2 q).natAbs / 100) with ⟨h1, h2, _⟩
          first
            | exact h1 hc
            | exact h2 hc
      · revert hc; decide
    · have h10 : (round2 q).natAbs % 100 / 10 < 10 := by omega
      have h1 : (round2 q).natAbs % 100 % 10 < 10 := by omega
      rw [twoDigits] at hc
      rcases List.mem_cons.mp hc with hc | hc
      · have := digitChar_isDigit _ h10
        rw [← hc] at this
        rcases isDigit_ne _ this with ⟨ha, hb, _⟩
        first
          | exact ha rfl
          | exact hb rfl
      · rcases List.mem_singleton.mp hc with hc
        have := digitChar_isDigit _ h1
        rw [← hc] at this
        rcases isDigit_ne _ this with ⟨ha, hb, _⟩
        first
          | exact ha rfl
          | exact hb rfl

/-- Characters of a rendered numeric cell: digits, a sign and a slash. -/
theorem numCellStr_not_mem (q : PyNum) :
    '\n' ∉ (numCellStr q).data ∧ '|' ∉ (numCellStr q).data := by
  have hd : (numCellStr q).data =
      (if q.n < 0 then "-" else "" : String).data ++ (Nat.repr q.n.natAbs).data ++
        (if q.d = 1 then "" else "/" ++ Nat.repr q.d : String).data := by
    rw [numCellStr, strDataAppend, strDataAppend]
  constructor <;>
  · rw [hd]
    intro hc
    rcases List.mem_append.mp hc with hc | hc
    · rcases List.mem_append.mp hc with hc | hc
      · split at hc <;> revert hc <;> decide
      · rcases repr_not_mem q.n.natAbs with ⟨h1, h2, _⟩
        first
          | exact h1 hc
          | exact h2 hc
    · split at hc
      · revert hc; decide
      · rw [strDataAppend] at hc
        rcases List.mem_append.mp hc with hc | hc
        · revert hc; decide
        · rcases repr_not_mem q.d with ⟨h1, h2, _⟩
          first
            | exact h1 hc
            | exact h2 hc

/-! ### Joined strings and separator splitting (C1) -/

theorem pyJoin_data (sep : String) (l : List String) :
    (pyJoin sep l).data = List.intercalate sep.data (l.map String.data) := rfl

theorem mem_intercalate {α : Type} (sep : List α) (c : α) :
    ∀ L : List (List α), c ∈ List.intercalate sep L → c ∈ sep ∨ ∃ l ∈ L, c ∈ l := by
  intro L
  induction L with
  | nil => intro hc; cases hc
  | cons x t ih =>
    cases t with
    | nil =>
      rw [intercalate_one]
      intro hc
      exact Or.inr ⟨x, List.mem_singleton.mpr rfl, hc⟩
    | cons y t2 =>
      rw [intercalate_cons2]
      intro hc
      rcases List.mem_append.mp hc with hc | hc
      · rcases List.mem_append.mp hc with hc | hc
        · exact Or.inr ⟨x, List.mem_cons_self _ _, hc⟩
        · exact Or.inl hc
      · rcases ih hc with hc | ⟨l, hl, hcl⟩
        · exact Or.inl hc
        · exact Or.inr ⟨l, List.mem_cons_of_mem _ hl, hcl⟩

/-- A character absent from the separator and from every piece is absent
from the joined string. -/
theorem pyJoin_not_mem (c : Char) (sep : String) (l : List String)
    (hs : c ∉ sep.data) (hl : ∀ p ∈ l, c ∉ p.data) : c ∉ (pyJoin sep l).data := by
  intro hc
  rw [pyJoin_data] at hc
  rcases mem_intercalate sep.data c _ hc with hc | ⟨piece, hpiece, hcp⟩
  · exact hs hc
  · obtain ⟨p, hp, rfl⟩ := List.mem_map.mp hpiece
    exact hl p hp hcp

theorem takeWhile_append_cons {α : Type} (p : α → Bool) :
    ∀ (l₁ : List α) (a : α) (l₂ : List α),
      (∀ x ∈ l₁, p x = true) → p a = false →
      (l₁ ++ a :: l₂).takeWhile p = l₁ ∧ (l₁ ++ a :: l₂).dropWhile p = a :: l₂ := by
  intro l₁
  induction l₁ with
  | nil =>
    intro a l₂ _ h2
    simp [List.takeWhile_cons, List.dropWhile_cons, h2]
  | cons x t ih =>
    intro a l₂ h1 h2
    have hx : p x = true := h1 x (List.mem_cons_self _ _)
    have ht := ih a l₂ (fun y hy => h1 y (List.mem_cons_of_mem _ hy)) h2
    simp [List.cons_append, List.takeWhile_cons, List.dropWhile_cons, hx, ht.1, ht.2]

theorem takeWhile_all {α : Type} (p : α → Bool) :
    ∀ l : List α, (∀ x ∈ l, p x = true) →
      l.takeWhile p = l ∧ l.dropWhile p = [] := by
  intro l
  induction l with
  | nil => intro _; exact ⟨rfl, rfl⟩
  | cons x t ih =>
    intro h
    have hx : p x = true := h x (List.mem_cons_self _ _)
    have ht := ih (fun y hy => h y (List.mem_cons_of_mem _ hy))
    simp [List.takeWhile_cons, List.dropWhile_cons, hx, ht.1, ht.2]

/-- With no `'|'` in the list, the `" | "` splitter leaves it whole. -/
theorem splitPipe_single : ∀ l : List Char, '|' ∉ l →
    splitOnSep [' ', '|', ' '] l = [l] := by
  intro l
  induction l with
  | nil => intro _; simp [splitOnSep]
  | cons a as ih =>
    intro h
    have has : '|' ∉ as := fun hx => h (List.mem_cons_of_mem _ hx)
    rw [splitOnSep_cons, if_neg, ih has]
    · rfl
    · rintro ⟨-, hpre⟩
      cases as with
      | nil => simp [List.isPrefixOf] at hpre
      | cons b bs =>
        have hb : b ≠ '|' := fun hx => has (hx ▸ List.mem_cons_self _ _)
        simp only [List.isPrefixOf, Bool.and_eq_true, beq_iff_eq] at hpre
        exact hb hpre.2.1.symm

/-- Splitting a string of the shape `piece ++ " | " ++ rest` with no `'|'`
in the piece peels off exactly the piece. -/
theorem splitPipe_append : ∀ (l₁ : List Char) (rest : List Char), '|' ∉ l₁ →
    splitOnSep [' ', '|', ' '] (l₁ ++ [' ', '|', ' '] ++ rest) =
      l₁ :: splitOnSep [' ', '|', ' '] rest := by
  intro l₁
  induction l₁ with
  | nil =>
    intro rest _
    simp only [List.nil_append, List.cons_append]
    rw [splitOnSep_cons, if_pos]
    · rfl
    · exact ⟨by simp, (isPrefixOf_eq_iff _ _).mpr ⟨rest, rfl⟩⟩
  | cons a l₁' ih =>
    intro rest h
    have ha : a ≠ '|' := fun hx => h (hx ▸ List.mem_cons_self _ _)
    have h' : '|' ∉ l₁' := fun hx => h (List.mem_cons_of_mem _ hx)
    rw [List.cons_append, List.cons_append, splitOnSep_cons, if_neg, ih rest h']
    · rfl
    · rintro ⟨-, hpre⟩
      cases hl : l₁' with
      | nil =>
        rw [hl] at hpre
        simp only [List.nil_append, List.cons_append, List.isPrefixOf,
          Bool.and_eq_true, beq_iff_eq] at hpre
        exact absurd hpre.2.1 (by decide)
      | cons b bs =>
        have hb : b ≠ '|' := fun hx => h' (hl ▸ hx ▸ List.mem_cons_self _ _)
        rw [hl] at hpre
        simp only [List.cons_append, List.isPrefixOf, Bool.and_eq_true,
          beq_iff_eq] at hpre
        exact hb hpre.2.1.symm

/-- Inversion of `" | ".join` by the `" | "` splitter when no piece
contains `'|'`. -/
theorem splitPipe_intercalate :
    ∀ L : List (List Char), L ≠ [] → (∀ p ∈ L, '|' ∉ p) →
      splitOnSep [' ', '|', ' '] (List.intercalate [' ', '|', ' '] L) = L := by
  intro L
  induction L with
  | nil => intro h _; exact absurd rfl h
  | cons x t ih =>
    intro _ h
    cases t with
    | nil =>
      rw [intercalate_one]
      exact splitPipe_single x (h x (List.mem_cons_self _ _))
    | cons y t2 =>
      rw [intercalate_cons2]
      rw [splitPipe_append x _ (h x (List.mem_cons_self _ _))]
      rw [ih (by simp) (fun p hp => h p (List.mem_cons_of_mem _ hp))]

/-! ### Cleanliness of the rendered lines (C1) -/

theorem append_not_mem (c : Char) {a b : String} (ha : c ∉ a.data) (hb : c ∉ b.data) :
    c ∉ (a ++ b).data := by
  rw [strDataAppend]
  intro hc
  rcases List.mem_append.mp hc with hc | hc
  · exact ha hc
  · exact hb hc

theorem mem_distincts : ∀ (l : List String) (v : String), v ∈ distincts l → v ∈ l := by
  have haux : ∀ (l acc : List String) (v : String),
      v ∈ l.foldl (fun acc v => if acc.contains v then acc else acc ++ [v]) acc →
        v ∈ acc ∨ v ∈ l := by
    intro l
    induction l with
    | nil => intro acc v hv; exact Or.inl hv
    | cons x t ih =>
      intro acc v hv
      rw [List.foldl_cons] at hv
      rcases ih _ v hv with hv | hv
      · split at hv
        · exact Or.inl hv
        · rcases List.mem_append.mp hv with hv | hv
          · exact Or.inl hv
          · rcases List.mem_singleton.mp hv with rfl
            exact Or.inr (List.mem_cons_self _ _)
      · exact Or.inr (List.mem_cons_of_mem _ hv)
  intro l v hv
  rcases haux l [] v hv with hv | hv
  · cases hv
  · exact hv

theorem mem_insertByCount (vals : List String) (k : String) :
    ∀ (l : List String) (v : String), v ∈ insertByCount vals k l → v = k ∨ v ∈ l := by
  intro l
  induction l with
  | nil =>
    intro v hv
    rcases List.mem_singleton.mp hv with rfl
    exact Or.inl rfl
  | cons x t ih =>
    intro v hv
    rw [insertByCount] at hv
    split at hv
    · rcases List.mem_cons.mp hv with rfl | hv
      · exact Or.inl rfl
      · exact Or.inr hv
    · rcases List.mem_cons.mp hv with rfl | hv
      · exact Or.inr (List.mem_cons_self _ _)
      · rcases ih v hv with hv | hv
        · exact Or.inl hv
        · exact Or.inr (List.mem_cons_of_mem _ hv)

theorem mem_valueCountKeys (vals : List String) (v : String) :
    v ∈ valueCountKeys vals → v ∈ vals := by
  have haux : ∀ keys : List String, v ∈ keys.foldr (insertByCount vals) [] → v ∈ keys := by
    intro keys
    induction keys with
    | nil => intro hv; cases hv
    | cons x t ih =>
      intro hv
      rw [List.foldr_cons] at hv
      rcases mem_insertByCount vals x _ v hv with rfl | hv
      · exact List.mem_cons_self _ _
      · exact List.mem_cons_of_mem _ (ih hv)
  intro hv
  exact mem_distincts vals v (haux _ hv)

/-- A rendered cell's characters either come from a text cell of the
column or are the digit/sign/slash characters of a numeric cell. -/
theorem colCellStr_not_mem_char (ch : Char) (hnum : ∀ q : PyNum, ch ∉ (numCellStr q).data)
    (c : Col) (i : Nat) (h : ∀ v ∈ colStrVals c, ch ∉ v.data) :
    ch ∉ (colCellStr c i).data := by
  cases c with
  | mk name data =>
    cases data with
    | nums vals => exact hnum _
    | strs vals =>
      show ch ∉ (vals.getD i "").data
      by_cases hi : i < vals.length
      · rw [List.getD_eq_getElem?_getD, List.getElem?_eq_getElem hi]
        exact h _ (List.getElem_mem hi)
      · rw [List.getD_eq_getElem?_getD, List.getElem?_eq_none (by omega)]
        intro hc
        cases hc

/-- No rendered line of a table contains a newline, provided the title, the
column names and the text cells are newline-free. -/
theorem dfLines_no_newline (df : DataFrame) (title : String)
    (htitle : '\n' ∉ title.data)
    (hnames : ∀ c ∈ df.cols, '\n' ∉ c.name.data)
    (hcells : ∀ c ∈ df.cols, ∀ v ∈ colStrVals c, '\n' ∉ v.data) :
    ∀ l ∈ dfLines df title, '\n' ∉ l.data := by
  intro l hl
  rw [dfLines] at hl
  rcases List.mem_append.mp hl with h4 | hrow
  · rcases List.mem_append.mp h4 with h3 | hmark
    · rcases List.mem_append.mp h3 with h2 | hcat
      · rcases List.mem_append.mp h2 with h6 | hnum
        · rcases List.mem_cons.mp h6 with rfl | h6
          · exact append_not_mem _ (append_not_mem _ (by decide) htitle) (by decide)
          rcases List.mem_cons.mp h6 with rfl | h6
          · exact append_not_mem _ (by decide) (repr_not_mem _).1
          rcases List.mem_cons.mp h6 with rfl | h6
          · exact append_not_mem _ (by decide) (repr_not_mem _).1
          rcases List.mem_cons.mp h6 with rfl | h6
          · intro hc; cases hc
          rcases List.mem_cons.mp h6 with rfl | h6
          · refine append_not_mem _ (by decide) (pyJoin_not_mem _ _ _ (by decide) ?_)
            intro p hp
            obtain ⟨ccol, hcol, rfl⟩ := List.mem_map.mp hp
            exact hnames ccol hcol
          rcases List.mem_cons.mp h6 with rfl | h6
          · intro hc; cases hc
          cases h6
        · rw [numericSection] at hnum
          cases hncs : numericCols df with
          | nil => rw [hncs] at hnum; cases hnum
          | cons n ns =>
            rw [hncs] at hnum
            rcases List.mem_cons.mp hnum with rfl | hnum
            · decide
            rcases List.mem_append.mp hnum with hnum | hnum
            · obtain ⟨cc, hcc, rfl⟩ := List.mem_map.mp hnum
              have hcc' : cc ∈ df.cols := by
                have : cc ∈ numericCols df := by rw [hncs]; exact hcc
                exact (List.mem_filter.mp this).1
              rw [numSummaryLine]
              cases hcd : cc.data with
              | strs vals => intro hc; cases hc
              | nums vals =>
                exact append_not_mem _ (append_not_mem _ (append_not_mem _
                  (append_not_mem _ (append_not_mem _ (append_not_mem _
                    (append_not_mem _ (append_not_mem _ (append_not_mem _
                      (append_not_mem _ (hnames cc hcc') (by decide))
                      (fmt2_not_mem _).1) (by decide))
                      (fmt2_not_mem _).1) (by decide)) (repr_not_mem _).1) (by decide))
                      (fmt2_not_mem _).1) (by decide)) (fmt2_not_mem _).1
            · rcases List.mem_singleton.mp hnum with rfl
              intro hc; cases hc
      · rw [categoricalSection] at hcat
        cases htcs : textCols df with
        | nil => rw [htcs] at hcat; cases hcat
        | cons t ts =>
          rw [htcs] at hcat
          rcases List.mem_cons.mp hcat with rfl | hcat
          · decide
          rcases List.mem_append.mp hcat with hcat | hcat
          · rw [List.mem_flatten] at hcat
            obtain ⟨ll, hll, hlll⟩ := hcat
            obtain ⟨cc, hcc, rfl⟩ := List.mem_map.mp hll
            have hcc' : cc ∈ df.cols := by
              have : cc ∈ textCols df := by rw [htcs]; exact hcc
              exact (List.mem_filter.mp this).1
            rw [catColLines] at hlll
            rcases List.mem_cons.mp hlll with rfl | hlll
            · exact append_not_mem _ (append_not_mem _ (append_not_mem _
                (hnames cc hcc') (by decide)) (repr_not_mem _).1) (by decide)
            · obtain ⟨v, hv, rfl⟩ := List.mem_map.mp hlll
              have hv' : v ∈ colStrVals cc :=
                mem_valueCountKeys _ v (List.mem_of_mem_take hv)
              exact append_not_mem _ (append_not_mem _ (append_not_mem _
                (append_not_mem _ (by decide) (hcells cc hcc' v hv')) (by decide))
                (repr_not_mem _).1) (by decide)
          · rcases List.mem_singleton.mp hcat with rfl
            intro hc; cases hc
    · rcases List.mem_singleton.mp hmark with rfl
      decide
  · rw [rowLines] at hrow
    obtain ⟨i, _, rfl⟩ := List.mem_map.mp hrow
    rw [rowLine]
    refine append_not_mem _ (append_not_mem _ (append_not_mem _ (by decide)
      (repr_not_mem _).1) (by decide)) (pyJoin_not_mem _ _ _ (by decide) ?_)
    intro p hp
    obtain ⟨cc, hcc, rfl⟩ := List.mem_map.mp hp
    exact append_not_mem _ (append_not_mem _ (hnames cc hcc) (by decide))
      (colCellStr_not_mem_char '\n' (fun q => (numCellStr_not_mem q).1) cc i
        (hcells cc hcc))

/-! ### Locating the row-dump marker (C1) -/

theorem strEq_of_data {a b : String} (h : a.data = b.data) : a = b := by
  cases a; cases b; cases h; rfl

theorem mem_strAppend_left (c : Char) (a b : String) (h : c ∈ a.data) :
    c ∈ (a ++ b).data := by
  rw [strDataAppend]
  exact List.mem_append_left _ h

theorem mem_strAppend_right (c : Char) (a b : String) (h : c ∈ b.data) :
    c ∈ (a ++ b).data := by
  rw [strDataAppend]
  exact List.mem_append_right _ h

/-- The marker line contains no colon, so any line with one differs. -/
theorem ne_marker_of_colon (l : String) (h : ':' ∈ l.data) : l ≠ markerLine := by
  intro heq
  subst heq
  revert h
  decide

theorem title_line_ne_marker (title : String) (ht : title ≠ "ALL DATA ROWS") :
    "=== " ++ title ++ " ===" ≠ markerLine := by
  intro heq
  apply ht
  have hd := congrArg String.data heq
  rw [strDataAppend, strDataAppend] at hd
  have hm : markerLine.data =
      ("=== " : String).data ++ (("ALL DATA ROWS" : String).data ++ (" ===" : String).data) := by
    decide
  rw [hm, List.append_assoc] at hd
  exact strEq_of_data (List.append_cancel_right (List.append_cancel_left hd))

/-- No line before the `=== ALL DATA ROWS ===` marker equals it. -/
theorem pre_marker_lines (df : DataFrame) (title : String)
    (htitle2 : title ≠ "ALL DATA ROWS") :
    ∀ l ∈ (["=== " ++ title ++ " ===",
            "Total Rows: " ++ Nat.repr df.nrows,
            "Total Columns: " ++ Nat.repr df.cols.length,
            "",
            "COLUMN HEADERS: " ++ pyJoin " | " (df.cols.map Col.name),
            ""] ++ numericSection df) ++ categoricalSection df,
      l ≠ markerLine := by
  intro l hl
  rcases List.mem_append.mp hl with h2 | hcat
  · rcases List.mem_append.mp h2 with h6 | hnum
    · rcases List.mem_cons.mp h6 with rfl | h6
      · exact title_line_ne_marker title htitle2
      rcases List.mem_cons.mp h6 with rfl | h6
      · exact ne_marker_of_colon _ (mem_strAppend_left _ _ _ (by decide))
      rcases List.mem_cons.mp h6 with rfl | h6
      · exact ne_marker_of_colon _ (mem_strAppend_left _ _ _ (by decide))
      rcases List.mem_cons.mp h6 with rfl | h6
      · decide
      rcases List.mem_cons.mp h6 with rfl | h6
      · exact ne_marker_of_colon _ (mem_strAppend_left _ _ _ (by decide))
      rcases List.mem_cons.mp h6 with rfl | h6
      · decide
      cases h6
    · rw [numericSection] at hnum
      cases hncs : numericCols df with
      | nil => rw [hncs] at hnum; cases hnum
      | cons n ns =>
        rw [hncs] at hnum
        rcases List.mem_cons.mp hnum with rfl | hnum
        · decide
        rcases List.mem_append.mp hnum with hnum | hnum
        · obtain ⟨cc, hcc, rfl⟩ := List.mem_map.mp hnum
          have hccn : isNumCol cc = true := by
            have : cc ∈ numericCols df := by rw [hncs]; exact hcc
            exact (List.mem_filter.mp this).2
          rw [numSummaryLine]
          cases hcd : cc.data with
          | strs vals => rw [isNumCol, hcd] at hccn; cases hccn
          | nums vals =>
            apply ne_marker_of_colon
            apply mem_strAppend_left
            apply mem_strAppend_left
            apply mem_strAppend_left
            apply mem_strAppend_left
            apply mem_strAppend_left
            apply mem_strAppend_left
            apply mem_strAppend_left
            apply mem_strAppend_left
            apply mem_strAppend_left
            exact mem_strAppend_right _ _ _ (by decide)
        · rcases List.mem_singleton.mp hnum with rfl
          decide
  · rw [categoricalSection] at hcat
    cases htcs : textCols df with
    | nil => rw [htcs] at hcat; cases hcat
    | cons t ts =>
      rw [htcs] at hcat
      rcases List.mem_cons.mp hcat with rfl | hcat
      · decide
      rcases List.mem_append.mp hcat with hcat | hcat
      · rw [List.mem_flatten] at hcat
        obtain ⟨ll, hll, hlll⟩ := hcat
        obtain ⟨cc, _, rfl⟩ := List.mem_map.mp hll
        rw [catColLines] at hlll
        rcases List.mem_cons.mp hlll with rfl | hlll
        · apply ne_marker_of_colon
          apply mem_strAppend_left
          apply mem_strAppend_left
          exact mem_strAppend_right _ _ _ (by decide)
        · obtain ⟨v, _, rfl⟩ := List.mem_map.mp hlll
          apply ne_marker_of_colon
          apply mem_strAppend_left
          apply mem_strAppend_left
          exact mem_strAppend_right _ _ _ (by decide)
      · rcases List.mem_singleton.mp hcat with rfl
        decide

theorem dropWhile_all_append {α : Type} (p : α → Bool) :
    ∀ (A B : List α), (∀ x ∈ A, p x = true) → (A ++ B).dropWhile p = B.dropWhile p := by
  intro A
  induction A with
  | nil => intro B _; rfl
  | cons x t ih =>
    intro B h
    rw [List.cons_append, List.dropWhile_cons]
    rw [if_pos (h x (List.mem_cons_self _ _))]
    exact ih B (fun y hy => h y (List.mem_cons_of_mem _ hy))

/-- Splitting the newline-joined lines recovers them. -/
theorem linesOf_pyJoin (L : List String) (hL : L ≠ []) (h : ∀ p ∈ L, '\n' ∉ p.data) :
    linesOf (pyJoin "\n" L) = L := by
  rw [linesOf, pyJoin_data]
  rw [show ("\n" : String).data = ['\n'] from rfl]
  have hmap : ∀ l ∈ L.map String.data, '\n' ∉ l := by
    intro l hl
    obtain ⟨p, hp, rfl⟩ := List.mem_map.mp hl
    exact h p hp
  rw [List.splitOn_intercalate (L.map String.data) '\n' hmap (by simpa using hL)]
  rw [List.map_map]
  have hid : (fun l => (⟨l⟩ : String)) ∘ String.data = id := by
    funext s
    cases s
    rfl
  rw [hid, List.map_id]

/-- The section after the marker is exactly the row dump. -/
theorem rowSection_df (df : DataFrame) (title : String)
    (hne : dfIsEmpty df = false)
    (htitle : '\n' ∉ title.data) (htitle2 : title ≠ "ALL DATA ROWS")
    (hnames : ∀ c ∈ df.cols, '\n' ∉ c.name.data)
    (hcells : ∀ c ∈ df.cols, ∀ v ∈ colStrVals c, '\n' ∉ v.data) :
    rowSection (df_to_text df title) = rowLines df := by
  rw [df_to_text, if_neg (by simp [hne])]
  rw [rowSection]
  rw [linesOf_pyJoin (dfLines df title) (by rw [dfLines]; simp)
    (dfLines_no_newline df title htitle hnames hcells)]
  rw [dfLines]
  rw [List.append_assoc _ [markerLine] (rowLines df)]
  rw [dropWhile_all_append _ _ _ (by
    intro x hx
    have := pre_marker_lines df title htitle2 x hx
    simpa using this)]
  rw [List.singleton_append, List.dropWhile_cons]
  rw [if_neg (by simp)]
  rfl

/-! ### Re-parsing the row dump (C1) -/

theorem mk_data (s : String) : (⟨s.data⟩ : String) = s := by
  cases s
  rfl

theorem parseCell_eq (name cell : List Char) (hc : ':' ∉ name) :
    parseCell (name ++ ':' :: cell) = (⟨name⟩, ⟨cell⟩) := by
  have htk := takeWhile_append_cons (fun c => c != ':') name ':' cell
    (fun x hx => bne_iff_ne.mpr (fun he => hc (he ▸ hx))) (by decide)
  rw [parseCell, htk.1, htk.2]
  rfl

theorem parseRowLine_eq (s : String) (ds body : List Char)
    (hs : s.data = 'R' :: 'o' :: 'w' :: ' ' :: (ds ++ ':' :: ' ' :: body))
    (hd1 : ds ≠ []) (hd2 : ∀ c ∈ ds, c.isDigit = true) :
    parseRowLine s = some ((splitOnSep [' ', '|', ' '] body).map parseCell) := by
  have h4 : s.data.take 4 = ['R', 'o', 'w', ' '] := by rw [hs]; rfl
  have h5 : s.data.drop 4 = ds ++ ':' :: ' ' :: body := by rw [hs]; rfl
  have htk := takeWhile_append_cons (fun c => c != ':') ds ':' (' ' :: body)
    (fun x hx => bne_iff_ne.mpr (isDigit_ne x (hd2 x hx)).2.2) (by decide)
  have he : ds.isEmpty = false := by
    cases ds with
    | nil => exact absurd rfl hd1
    | cons x t => rfl
  have ha : ds.all Char.isDigit = true := List.all_eq_true.mpr hd2
  simp only [parseRowLine, if_pos h4, h5, htk.1, htk.2]
  rw [if_neg (by simp [he, ha])]

theorem parseRowLine_rowLine (df : DataFrame) (i : Nat)
    (hcols : df.cols ≠ [])
    (hnames : ∀ c ∈ df.cols, '|' ∉ c.name.data ∧ ':' ∉ c.name.data)
    (hcellp : ∀ c ∈ df.cols, ∀ v ∈ colStrVals c, '|' ∉ v.data) :
    parseRowLine (rowLine df i) =
      some (df.cols.map (fun c => (c.name, colCellStr c i))) := by
  have hdata : (rowLine df i).data =
      'R' :: 'o' :: 'w' :: ' ' :: ((Nat.repr (i + 1)).data ++ ':' :: ' ' ::
        (pyJoin " | " (df.cols.map (fun c => c.name ++ ":" ++ colCellStr c i))).data) := by
    rw [rowLine, strDataAppend, strDataAppend, strDataAppend]
    rw [show ("Row " : String).data = ['R', 'o', 'w', ' '] from rfl]
    rw [show (": " : String).data = [':', ' '] from rfl]
    simp [List.append_assoc]
  rw [parseRowLine_eq _ _ _ hdata (repr_ne_nil _) (repr_isDigit _)]
  have hjoin : (pyJoin " | " (df.cols.map (fun c => c.name ++ ":" ++ colCellStr c i))).data
      = List.intercalate [' ', '|', ' ']
          ((df.cols.map (fun c => c.name ++ ":" ++ colCellStr c i)).map String.data) := by
    rw [pyJoin_data]
  rw [hjoin]
  rw [splitPipe_intercalate _ (by simp [hcols]) (by
    intro p hp
    obtain ⟨pp, hpp, rfl⟩ := List.mem_map.mp hp
    obtain ⟨cc, hcc, rfl⟩ := List.mem_map.mp hpp
    exact append_not_mem '|' (append_not_mem '|' (hnames cc hcc).1 (by decide))
      (colCellStr_not_mem_char '|' (fun q => (numCellStr_not_mem q).2) cc i
        (hcellp cc hcc)))]
  rw [List.map_map, List.map_map]
  congr 1
  apply List.map_congr_left
  intro cc hcc
  simp only [Function.comp_apply]
  have hp : ((cc.name ++ ":" ++ colCellStr cc i)).data =
      cc.name.data ++ ':' :: (colCellStr cc i).data := by
    rw [strDataAppend, strDataAppend]
    rw [show (":" : String).data = [':'] from rfl]
    simp [List.append_assoc]
  rw [hp, parseCell_eq _ _ (hnames cc hcc).2]

/-- C1 (amended): for every non-empty table whose title is newline-free and
distinct from "ALL DATA ROWS", whose column names contain no newline, pipe
or colon, and whose text cells contain no newline or pipe, the rendered
output after the `=== ALL DATA ROWS ===` marker consists of exactly one
line per table row, in row order, of the form
`Row <1-based index>: col1:val1 | col2:val2 | ...` over every column, and
re-parsing those lines recovers `len(T)` rows with the rendered cell
strings.  Every empty table renders to the empty string. -/
theorem renderer_row_dump_roundtrip :
    (∀ (df : DataFrame) (title : String),
      dfIsEmpty df = false →
      '\n' ∉ title.data → title ≠ "ALL DATA ROWS" →
      (∀ c ∈ df.cols, '\n' ∉ c.name.data ∧ '|' ∉ c.name.data ∧ ':' ∉ c.name.data) →
      (∀ c ∈ df.cols, ∀ v ∈ colStrVals c, '\n' ∉ v.data ∧ '|' ∉ v.data) →
      rowSection (df_to_text df title) =
        (List.range df.nrows).map (fun i =>
          "Row " ++ Nat.repr (i + 1) ++ ": " ++
            pyJoin " | " (df.cols.map (fun c => c.name ++ ":" ++ colCellStr c i))) ∧
      (rowSection (df_to_text df title)).length = df.nrows ∧
      (∀ i, i < df.nrows →
        parseRowLine ((rowSection (df_to_text df title)).getD i "") =
          some (df.cols.map (fun c => (c.name, colCellStr c i))))) ∧
    (∀ (df : DataFrame) (title : String), dfIsEmpty df = true →
      df_to_text df title = "") := by
  constructor
  · intro df title hne htitle htitle2 hnames hcells
    have hsec := rowSection_df df title hne htitle htitle2
      (fun c hc => (hnames c hc).1) (fun c hc v hv => (hcells c hc v hv).1)
    have hcols : df.cols ≠ [] := by
      rw [dfIsEmpty] at hne
      intro hx
      simp [hx] at hne
    refine ⟨by rw [hsec]; rfl, by rw [hsec, rowLines]; simp, ?_⟩
    intro i hi
    have hgd : (rowSection (df_to_text df title)).getD i "" = rowLine df i := by
      rw [hsec, rowLines, List.getD_eq_getElem?_getD, List.getElem?_map,
        List.getElem?_range hi]
      rfl
    rw [hgd]
    exact parseRowLine_rowLine df i hcols
      (fun c hc => ⟨(hnames c hc).2.1, (hnames c hc).2.2⟩)
      (fun c hc v hv => (hcells c hc v hv).2)
  · intro df title he
    rw [df_to_text, if_pos he]

set_option maxRecDepth 40000 in
/-- Witness for C1 (amended) at a well-behaved two-row table. -/
theorem renderer_row_dump_roundtrip_witness :
    dfIsEmpty dfSmall = false ∧
    (rowSection (df_to_text dfSmall "Complete CSV Dataset")).length = dfSmall.nrows := by
  refine ⟨by decide, ?_⟩
  exact (renderer_row_dump_roundtrip.1 dfSmall "Complete CSV Dataset" (by decide)
    (by decide) (by decide) (by decide) (by decide)).2.1

set_option maxRecDepth 40000 in
/-- Counterexample to C1 as stated: a one-row table whose single cell
contains a newline renders to two lines after the `=== ALL DATA ROWS ===`
marker, so the row dump does not have exactly one line per table row and
line-based re-parsing does not recover one row. -/
theorem renderer_row_dump_counterexample :
    dfNewlineCell.nrows = 1 ∧
    (rowSection (df_to_text dfNewlineCell "T")).length = 2 := by
  exact ⟨rfl, by decide⟩

end FinDoc
